import Mathlib

/-!
Verification of the passlib FSHP and LDAP-digest handlers
(`passlib/handlers/fshp.py`, `passlib/handlers/ldap_digests.py`).

Bytes are modelled as `Nat` values (< 256 where it matters), byte strings
as `List Nat`, and text as `List Char`.  The Python standard library's
base64 codec is modelled byte-for-byte after CPython 2's
`binascii.b2a_base64` / `a2b_base64`, which the handlers call through
`base64.b64encode` / `b64decode`.  The generic handler mixins
(`passlib.utils.handlers`) are not part of the provided sources, so their
validation behaviour is modelled from the specification where noted.
-/

/-- The base64 standard alphabet test, `[a-zA-Z0-9+/]` in the handlers'
regexes. -/
def isB64Char (c : Char) : Bool :=
  ('A' ≤ c && c ≤ 'Z') || ('a' ≤ c && c ≤ 'z') || ('0' ≤ c && c ≤ '9') ||
  c == '+' || c == '/'

/-- The base64 alphabet: sextet value to character. -/
def encChar (n : Nat) : Char :=
  if n < 26 then Char.ofNat (65 + n)
  else if n < 52 then Char.ofNat (97 + (n - 26))
  else if n < 62 then Char.ofNat (48 + (n - 52))
  else if n = 62 then '+'
  else '/'

/-- The base64 alphabet: character to sextet value (0 on non-alphabet
characters, which never reach it through the handlers). -/
def decChar (c : Char) : Nat :=
  if 'A' ≤ c ∧ c ≤ 'Z' then c.toNat - 65
  else if 'a' ≤ c ∧ c ≤ 'z' then c.toNat - 97 + 26
  else if '0' ≤ c ∧ c ≤ '9' then c.toNat - 48 + 52
  else if c = '+' then 62
  else if c = '/' then 63
  else 0

/-- The data characters of `base64.b64encode`: each 3-byte group becomes
4 sextet characters, a trailing 1- or 2-byte group becomes 2 or 3. -/
def encData : List Nat → List Char
  | [] => []
  | [a] => [encChar (a / 4), encChar (a % 4 * 16)]
  | [a, b] => [encChar (a / 4), encChar (a % 4 * 16 + b / 16), encChar (b % 16 * 4)]
  | a :: b :: c :: rest =>
      encChar (a / 4) :: encChar (a % 4 * 16 + b / 16) ::
      encChar (b % 16 * 4 + c / 64) :: encChar (c % 64) :: encData rest

/-- Number of `=` padding characters `base64.b64encode` appends. -/
def padLen : List Nat → Nat
  | [] => 0
  | [_] => 2
  | [_, _] => 1
  | _ :: _ :: _ :: rest => padLen rest

/-- Python's `base64.b64encode` on a byte string. -/
def b64encode (x : List Nat) : List Char :=
  encData x ++ List.replicate (padLen x) '='

/-- Byte reassembly of `a2b_base64`: 4 sextets to 3 bytes, a trailing
group of 2 or 3 sextets to 1 or 2 bytes. -/
def decChunks : List Char → List Nat
  | c1 :: c2 :: c3 :: c4 :: rest =>
      (decChar c1 * 4 + decChar c2 / 16) ::
      (decChar c2 % 16 * 16 + decChar c3 / 4) ::
      (decChar c3 % 4 * 64 + decChar c4) :: decChunks rest
  | [c1, c2] => [decChar c1 * 4 + decChar c2 / 16]
  | [c1, c2, c3] =>
      [decChar c1 * 4 + decChar c2 / 16, decChar c2 % 16 * 16 + decChar c3 / 4]
  | _ => []

/-- Python 2's `base64.b64decode` (`binascii.a2b_base64`) on a string of
base64-alphabet characters followed by `=` padding — the only shape the
handlers' regexes let through.  With `d` data characters and `p` pads it
fails ("Incorrect padding", surfacing as the `TypeError` the handlers
catch) exactly when `d % 4 = 1`, or `d % 4 = 2` with `p < 2`, or
`d % 4 = 3` with `p = 0`; otherwise the data characters decode in groups
and surplus pads are ignored. -/
def b64decodePy (s : List Char) : Option (List Nat) :=
  let d := s.takeWhile isB64Char
  let p := s.dropWhile isB64Char
  if ¬ p.all (· = '=') then none
  else if d.length % 4 = 1 then none
  else if d.length % 4 = 2 ∧ p.length < 2 then none
  else if d.length % 4 = 3 ∧ p.length < 1 then none
  else some (decChunks d)

/-- A decimal digit character. -/
def digitChar : Nat → Char
  | 0 => '0'
  | 1 => '1'
  | 2 => '2'
  | 3 => '3'
  | 4 => '4'
  | 5 => '5'
  | 6 => '6'
  | 7 => '7'
  | 8 => '8'
  | _ => '9'

/-- Fuelled digit emitter for decimal rendering (most significant digit
first); the fuel only bounds the recursion depth. -/
def natToCharsAux : Nat → Nat → List Char
  | 0, _ => []
  | fuel + 1, n =>
      if n = 0 then [] else natToCharsAux fuel (n / 10) ++ [digitChar (n % 10)]

/-- Decimal rendering of a nonnegative integer, as Python's `"%d"`. -/
def natToChars (n : Nat) : List Char :=
  if n = 0 then ['0'] else natToCharsAux n n

/-- Value of a decimal digit character. -/
def digitVal (c : Char) : Nat := c.toNat - 48

/-- Value of a decimal digit string, as Python's `int()` on the regex
groups `(\d+)`. -/
def charsToNat (l : List Char) : Nat :=
  l.foldl (fun a c => 10 * a + digitVal c) 0

/-- Strip a literal from the front of a character list; `none` if the
list does not start with it. -/
def dropLit : List Char → List Char → Option (List Char)
  | [], s => some s
  | _ :: _, [] => none
  | a :: as, b :: bs => if a = b then dropLit as bs else none

/-- Boolean test that `s` starts with `l`. -/
def beginsWith : List Char → List Char → Bool
  | [], _ => true
  | _ :: _, [] => false
  | a :: as, b :: bs => a == b && beginsWith as bs

/-- Decidable equality for `Except`, used to evaluate handler results on
concrete inputs. -/
instance {ε α : Type} [DecidableEq ε] [DecidableEq α] :
    DecidableEq (Except ε α) := fun a b =>
  match a, b with
  | .ok x, .ok y =>
      if h : x = y then isTrue (by rw [h])
      else isFalse (by intro hh; cases hh; exact h rfl)
  | .error x, .error y =>
      if h : x = y then isTrue (by rw [h])
      else isFalse (by intro hh; cases hh; exact h rfl)
  | .ok _, .error _ => isFalse (by intro hh; cases hh)
  | .error _, .ok _ => isFalse (by intro hh; cases hh)

/-- Error taxonomy of the handlers, following the specification's names:
`invalidHash` (string does not match the grammar), `malformedHash`
(grammar matched, payload not decodable), `invalidSetting` (a salt /
rounds / checksum bound violated at construction, tagged with the field),
`unknownVariant` (FSHP variant missing or unresolvable; the source raises
`TypeError` / `ValueError` there). -/
inductive HandlerError where
  | invalidHash
  | malformedHash
  | invalidSetting (field : String)
  | unknownVariant
deriving DecidableEq, Repr

/-- The FSHP `variant` keyword as passed by a caller: absent, a Python
integer, or a text alias (a `bytes` alias is ASCII-decoded to text by the
source before lookup, so it is subsumed by `vstr`). -/
inductive VariantArg where
  | vnone
  | vint (n : Int)
  | vstr (s : String)
deriving DecidableEq, Repr

/-- A secret as accepted by `_calc_checksum`: raw bytes or unicode text. -/
inductive Secret where
  | bytes (b : List Nat)
  | text (t : String)

/-- `_calc_checksum`'s secret normalization: unicode text is encoded to
UTF-8 bytes, raw bytes pass through. -/
def secretBytes : Secret → List Nat
  | .bytes b => b
  | .text t => t.toUTF8.toList.map (fun u => u.toNat)

/-- Argument record of the external `pbkdf1` KDF
(`passlib.utils.pbkdf2.pbkdf1`), with the source's keyword names. -/
structure KdfArgs where
  secret : List Nat
  salt : List Nat
  rounds : Nat
  keylen : Nat
  hash : String
deriving DecidableEq, Repr

/-- Modelled from the spec: the salt-length bound check of the
`HasRawSalt` mixin (§4.3 of the spec; `passlib.utils.handlers` is not in
the provided sources).  `maxSize = none` means unbounded above. -/
def saltLenOk (minSize : Nat) (maxSize : Option Nat) (salt : List Nat) : Bool :=
  minSize ≤ salt.length &&
  (match maxSize with
   | none => true
   | some m => salt.length ≤ m)

/-- One literal character of the grammar. -/
def expectChar (c : Char) : List Char → Option (List Char)
  | [] => none
  | x :: r => if x = c then some r else none

/-- One `(\d+)` group: the maximal digit run, valued by `int()`. -/
def parseField (s : List Char) : Option (Nat × List Char) :=
  let d := s.takeWhile Char.isDigit
  let r := s.dropWhile Char.isDigit
  if d.isEmpty then none else some (charsToNat d, r)

namespace fshp

/-- `fshp.ident`. -/
def ident : String := "\x7bFSHP"

/-- `fshp.min_rounds`. -/
def min_rounds : Nat := 1

/-- `fshp.max_rounds`. -/
def max_rounds : Nat := 4294967295

/-- `fshp.min_salt_size` (0, with no upper bound: `max_salt_size = None`). -/
def min_salt_size : Nat := 0

/-- `fshp.default_variant`. -/
def default_variant : Nat := 1

/-- `fshp._variant_info`: variant to (hash name, digest size). -/
def variant_info : Nat → Option (String × Nat)
  | 0 => some ("sha1", 20)
  | 1 => some ("sha256", 32)
  | 2 => some ("sha384", 48)
  | 3 => some ("sha512", 64)
  | _ => none

/-- `fshp.checksum_alg`: hash name of a (valid) variant. -/
def checksum_alg (v : Nat) : String := ((variant_info v).getD ("", 0)).1

/-- `fshp.checksum_size`: digest size of a (valid) variant. -/
def checksum_size (v : Nat) : Nat := ((variant_info v).getD ("", 0)).2

/-- `fshp._variant_aliases`: decimal-string and hash-name aliases. -/
def aliasLookup (s : String) : Option Nat :=
  if s = "0" then some 0
  else if s = "1" then some 1
  else if s = "2" then some 2
  else if s = "3" then some 3
  else if s = "sha1" then some 0
  else if s = "sha256" then some 1
  else if s = "sha384" then some 2
  else if s = "sha512" then some 3
  else none

/-- `fshp._norm_variant`: absent variant is an error unless
`use_defaults` is set (then variant 1); text goes through the alias
table; an integer must be a key of `_variant_info`.  All failure paths
(`TypeError`, `ValueError` in the source) are mapped to
`unknownVariant`. -/
def normVariant (useDefaults : Bool) : VariantArg → Except HandlerError Nat
  | .vnone =>
      if useDefaults then .ok default_variant else .error .unknownVariant
  | .vstr s =>
      match aliasLookup s with
      | some v => .ok v
      | none => .error .unknownVariant
  | .vint n =>
      if n = 0 then .ok 0
      else if n = 1 then .ok 1
      else if n = 2 then .ok 2
      else if n = 3 then .ok 3
      else .error .unknownVariant

end fshp

/-- A parsed/constructed FSHP record: `variant`, raw `salt`, `rounds`,
and the raw checksum (`none` for a config-only record). -/
structure FshpRecord where
  variant : Nat
  salt : List Nat
  rounds : Nat
  checksum : Option (List Nat)
deriving DecidableEq, Repr

namespace fshp

/-- `fshp(...)` record construction: `__init__` normalizes the variant
first (it controls the checksum size), then the mixin chain validates
salt length, rounds bounds and checksum length.  The mixin checks are
modelled from the spec (§4.3): a bound violation is an
`invalidSetting` error, never a clamp. -/
def mk' (useDefaults : Bool) (variant : VariantArg) (salt : List Nat)
    (rounds : Nat) (checksum : Option (List Nat)) :
    Except HandlerError FshpRecord :=
  match normVariant useDefaults variant with
  | .error e => .error e
  | .ok v =>
      if ¬ saltLenOk min_salt_size none salt then .error (.invalidSetting "salt")
      else if rounds < min_rounds ∨ max_rounds < rounds then
        .error (.invalidSetting "rounds")
      else
        match checksum with
        | none => .ok ⟨v, salt, rounds, none⟩
        | some c =>
            if c.length = checksum_size v then .ok ⟨v, salt, rounds, some c⟩
            else .error (.invalidSetting "checksum")

/-- `fshp._hash_regex` as a deterministic parser:
`^\x7bFSHP(\d+)\|(\d+)\|(\d+)\x7d([a-zA-Z0-9+/]+={0,3})$`.
Returns the variant / salt-size / rounds groups (as `int()` of the
digits) and the payload group. -/
def parseHash (s : List Char) : Option (Nat × Nat × Nat × List Char) :=
  match dropLit ident.data s with
  | none => none
  | some r1 =>
      match parseField r1 with
      | none => none
      | some (v, r2) =>
          match expectChar '|' r2 with
          | none => none
          | some r3 =>
              match parseField r3 with
              | none => none
              | some (ss, r4) =>
                  match expectChar '|' r4 with
                  | none => none
                  | some r5 =>
                      match parseField r5 with
                      | none => none
                      | some (rnd, r6) =>
                          match expectChar '\x7d' r6 with
                          | none => none
                          | some r7 =>
                              let dd := r7.takeWhile isB64Char
                              let pp := r7.dropWhile isB64Char
                              if dd.isEmpty then none
                              else if pp.length ≤ 3 ∧ pp.all (· = '=') then
                                some (v, ss, rnd, r7)
                              else none

/-- `fshp.from_string`: no regex match is `InvalidHashError`; a base64
failure is `MalformedHashError`; otherwise the decoded payload is split
at the declared salt size (`data[:salt_size]` / `data[salt_size:]`) and
handed to the constructor (without `use_defaults`). -/
def from_string (s : List Char) : Except HandlerError FshpRecord :=
  match parseHash s with
  | none => .error .invalidHash
  | some (v, saltSize, rounds, payload) =>
      match b64decodePy payload with
      | none => .error .malformedHash
      | some data =>
          mk' false (.vint (Int.ofNat v)) (data.take saltSize) rounds
            (some (data.drop saltSize))

/-- `fshp._stub_checksum`: all-zero bytes of the variant's digest size. -/
def stub_checksum (v : Nat) : List Nat := List.replicate (checksum_size v) 0

/-- `fshp.to_string`: `"\x7bFSHP%d|%d|%d\x7d%s"` with base64 of
`salt + chk`, where `chk` is the checksum or the all-zero stub. -/
def to_string (r : FshpRecord) : List Char :=
  ident.data ++ natToChars r.variant ++ '|' :: natToChars r.salt.length ++
  '|' :: natToChars r.rounds ++
  '\x7d' :: b64encode (r.salt ++ r.checksum.getD (stub_checksum r.variant))

/-- `fshp._calc_checksum`: calls the external `pbkdf1` with the record's
salt as the KDF's `secret`, the (UTF-8 encoded) caller secret as the
KDF's `salt`, the record's rounds, and the variant's digest size and
hash name. -/
def calcChecksum (pbkdf1 : KdfArgs → List Nat) (r : FshpRecord)
    (secret : Secret) : List Nat :=
  pbkdf1 ⟨r.salt, secretBytes secret, r.rounds, checksum_size r.variant,
    checksum_alg r.variant⟩

end fshp

/-- A parsed/constructed salted-digest record (`ldap_salted_md5` /
`ldap_salted_sha1`): raw `salt` and raw checksum (`none` for a
config-only record). -/
structure SaltedRecord where
  salt : List Nat
  checksum : Option (List Nat)
deriving DecidableEq, Repr

/-- Modelled from the spec: `_SaltedBase64DigestHelper` record
construction via the `HasRawSalt` / `HasRawChecksum` mixin chain
(`passlib.utils.handlers` is not in the provided sources): the salt
length must lie in the class bounds 4..16 and a present checksum must
have exactly the class's `checksum_size` (§4.3); violations are
`invalidSetting` errors, never clamped. -/
def saltedMk (checksum_size : Nat) (salt : List Nat)
    (checksum : Option (List Nat)) : Except HandlerError SaltedRecord :=
  if ¬ saltLenOk 4 (some 16) salt then .error (.invalidSetting "salt")
  else
    match checksum with
    | none => .ok ⟨salt, none⟩
    | some c =>
        if c.length = checksum_size then .ok ⟨salt, some c⟩
        else .error (.invalidSetting "checksum")

/-- The `_SaltedBase64DigestHelper._hash_regex` family as a parser:
`^<ident>(?P<tmp>[+/a-zA-Z0-9]\x7bminData,\x7d={0,2})$`; returns the
`tmp` group. -/
def saltedParse (ident : String) (minData : Nat) (s : List Char) :
    Option (List Char) :=
  match dropLit ident.data s with
  | none => none
  | some r =>
      let dd := r.takeWhile isB64Char
      let pp := r.dropWhile isB64Char
      if minData ≤ dd.length ∧ pp.length ≤ 2 ∧ pp.all (· = '=') then some r
      else none

/-- `_SaltedBase64DigestHelper.from_string`: no regex match is
`InvalidHashError`; a base64 failure is `MalformedHashError`; otherwise
the decoded payload is split at the class's fixed `checksum_size`
(`data[:cs]` checksum, `data[cs:]` salt). -/
def saltedFromString (ident : String) (minData checksum_size : Nat)
    (s : List Char) : Except HandlerError SaltedRecord :=
  match saltedParse ident minData s with
  | none => .error .invalidHash
  | some payload =>
      match b64decodePy payload with
      | none => .error .malformedHash
      | some data =>
          saltedMk checksum_size (data.drop checksum_size)
            (some (data.take checksum_size))

/-- `_SaltedBase64DigestHelper.to_string`: ident plus base64 of
`(checksum or stub) + salt`; the stub is all-zero bytes of
`checksum_size`. -/
def saltedToString (ident : String) (checksum_size : Nat)
    (r : SaltedRecord) : List Char :=
  ident.data ++
  b64encode (r.checksum.getD (List.replicate checksum_size 0) ++ r.salt)

namespace ldap_salted_md5

/-- `ldap_salted_md5.ident`. -/
def ident : String := "\x7bSMD5\x7d"

/-- `ldap_salted_md5.checksum_size`. -/
def checksum_size : Nat := 16

/-- Minimum data-character count of `ldap_salted_md5._hash_regex`
(`[+/a-zA-Z0-9]\x7b27,\x7d`). -/
def minData : Nat := 27

/-- `ldap_salted_md5.from_string`. -/
def from_string (s : List Char) : Except HandlerError SaltedRecord :=
  saltedFromString ident minData checksum_size s

/-- `ldap_salted_md5.to_string`. -/
def to_string (r : SaltedRecord) : List Char :=
  saltedToString ident checksum_size r

end ldap_salted_md5

namespace ldap_salted_sha1

/-- `ldap_salted_sha1.ident`. -/
def ident : String := "\x7bSSHA\x7d"

/-- `ldap_salted_sha1.checksum_size`. -/
def checksum_size : Nat := 20

/-- Minimum data-character count of `ldap_salted_sha1._hash_regex`
(`[+/a-zA-Z0-9]\x7b32,\x7d`). -/
def minData : Nat := 32

/-- `ldap_salted_sha1.from_string`. -/
def from_string (s : List Char) : Except HandlerError SaltedRecord :=
  saltedFromString ident minData checksum_size s

/-- `ldap_salted_sha1.to_string`. -/
def to_string (r : SaltedRecord) : List Char :=
  saltedToString ident checksum_size r

end ldap_salted_sha1

namespace ldap_md5

/-- `ldap_md5.ident`. -/
def ident : String := "\x7bMD5\x7d"

/-- `ldap_md5._hash_regex` as a recognizer:
`^\x7bMD5\x7d(?P<chk>[+/a-zA-Z0-9]{22}==)$`. -/
def matchesHash (s : List Char) : Bool :=
  match dropLit ident.data s with
  | none => false
  | some r =>
      (r.takeWhile isB64Char).length = 22 && r.dropWhile isB64Char = ['=', '=']

end ldap_md5

namespace ldap_sha1

/-- `ldap_sha1.ident`. -/
def ident : String := "\x7bSHA\x7d"

/-- `ldap_sha1._hash_regex` as a recognizer:
`^\x7bSHA\x7d(?P<chk>[+/a-zA-Z0-9]{27}=)$`. -/
def matchesHash (s : List Char) : Bool :=
  match dropLit ident.data s with
  | none => false
  | some r =>
      (r.takeWhile isB64Char).length = 27 && r.dropWhile isB64Char = ['=']

end ldap_sha1

/-- Modelled from the spec: `identify(s)` of the generic handler
(`passlib.utils.handlers.GenericHandler.identify`, not in the provided
sources) is true iff `s` is non-empty and begins with the scheme's
identifier token (§4.2). -/
def identify (ident : String) (s : List Char) : Bool :=
  !s.isEmpty && beginsWith ident.data s

/-- The five schemes covered by the identify claim, indexed:
0 fshp, 1 ldap_md5, 2 ldap_sha1, 3 ldap_salted_md5, 4 ldap_salted_sha1. -/
def schemeIdent (i : Fin 5) : String :=
  match i.val with
  | 0 => fshp.ident
  | 1 => ldap_md5.ident
  | 2 => ldap_sha1.ident
  | 3 => ldap_salted_md5.ident
  | _ => ldap_salted_sha1.ident

/-- Grammar membership per scheme (the scheme's anchored `_hash_regex`). -/
def schemeMatches (i : Fin 5) (s : List Char) : Bool :=
  match i.val with
  | 0 => (fshp.parseHash s).isSome
  | 1 => ldap_md5.matchesHash s
  | 2 => ldap_sha1.matchesHash s
  | 3 => (saltedParse ldap_salted_md5.ident ldap_salted_md5.minData s).isSome
  | _ => (saltedParse ldap_salted_sha1.ident ldap_salted_sha1.minData s).isSome

/-- `identify` of scheme `i`. -/
def schemeIdentify (i : Fin 5) (s : List Char) : Bool :=
  identify (schemeIdent i) s

/-! ### Alphabet and decimal lemmas -/

theorem decChar_encChar_fin : ∀ n : Fin 64, decChar (encChar n.val) = n.val := by
  decide

theorem isB64Char_encChar_fin : ∀ n : Fin 64, isB64Char (encChar n.val) = true := by
  decide

theorem decChar_encChar {n : Nat} (h : n < 64) : decChar (encChar n) = n :=
  decChar_encChar_fin ⟨n, h⟩

theorem isB64Char_encChar {n : Nat} (h : n < 64) : isB64Char (encChar n) = true :=
  isB64Char_encChar_fin ⟨n, h⟩

theorem isB64Char_pad : isB64Char '=' = false := by decide

theorem digitVal_digitChar_fin : ∀ m : Fin 10, digitVal (digitChar m.val) = m.val := by
  decide

theorem isDigit_digitChar_fin : ∀ m : Fin 10, (digitChar m.val).isDigit = true := by
  decide

theorem charsToNat_append_digit (l : List Char) (c : Char) :
    charsToNat (l ++ [c]) = 10 * charsToNat l + digitVal c := by
  simp [charsToNat, List.foldl_append]

theorem charsToNat_natToCharsAux :
    ∀ fuel n, n ≤ fuel → charsToNat (natToCharsAux fuel n) = n := by
  intro fuel
  induction fuel with
  | zero =>
      intro n h
      have : n = 0 := by omega
      subst this
      rfl
  | succ f ih =>
      intro n h
      by_cases hn : n = 0
      · subst hn; rfl
      · have hrec : charsToNat (natToCharsAux f (n / 10)) = n / 10 :=
          ih (n / 10) (by omega)
        have hd : digitVal (digitChar (n % 10)) = n % 10 :=
          digitVal_digitChar_fin ⟨n % 10, by omega⟩
        simp only [natToCharsAux, if_neg hn]
        rw [charsToNat_append_digit, hrec, hd]
        omega

theorem charsToNat_natToChars (n : Nat) : charsToNat (natToChars n) = n := by
  by_cases h : n = 0
  · subst h; rfl
  · simp only [natToChars, if_neg h]
    exact charsToNat_natToCharsAux n n le_rfl

theorem natToCharsAux_digits :
    ∀ fuel n, ∀ c ∈ natToCharsAux fuel n, c.isDigit = true := by
  intro fuel
  induction fuel with
  | zero => intro n c hc; simp [natToCharsAux] at hc
  | succ f ih =>
      intro n c hc
      by_cases hn : n = 0
      · subst hn; simp [natToCharsAux] at hc
      · simp only [natToCharsAux, if_neg hn, List.mem_append,
          List.mem_singleton] at hc
        rcases hc with hc | hc
        · exact ih (n / 10) c hc
        · subst hc; exact isDigit_digitChar_fin ⟨n % 10, by omega⟩

theorem natToChars_digits (n : Nat) : ∀ c ∈ natToChars n, c.isDigit = true := by
  by_cases h : n = 0
  · subst h; decide
  · simp only [natToChars, if_neg h]
    exact natToCharsAux_digits n n

theorem natToChars_ne_nil (n : Nat) : natToChars n ≠ [] := by
  by_cases h : n = 0
  · subst h; decide
  · simp only [natToChars, if_neg h]
    match n, h with
    | n + 1, _ => simp [natToCharsAux]

/-! ### Base64 codec lemmas -/

theorem encData_b64 :
    ∀ x : List Nat, (∀ b ∈ x, b < 256) → ∀ c ∈ encData x, isB64Char c = true := by
  intro x
  induction x using encData.induct with
  | case1 => intro _ c hc; simp [encData] at hc
  | case2 a =>
      intro h c hc
      have ha : a < 256 := h a (by simp)
      simp only [encData, List.mem_cons, List.not_mem_nil, or_false] at hc
      rcases hc with hc | hc <;> subst hc <;> exact isB64Char_encChar (by omega)
  | case3 a b =>
      intro h c hc
      have ha : a < 256 := h a (by simp)
      have hb : b < 256 := h b (by simp)
      simp only [encData, List.mem_cons, List.not_mem_nil, or_false] at hc
      rcases hc with hc | hc | hc <;> subst hc <;>
        exact isB64Char_encChar (by omega)
  | case4 a b c rest ih =>
      intro h e he
      have ha : a < 256 := h a (by simp)
      have hb : b < 256 := h b (by simp)
      have hc : c < 256 := h c (by simp)
      simp only [encData, List.mem_cons] at he
      rcases he with he | he | he | he | he
      · subst he; exact isB64Char_encChar (by omega)
      · subst he; exact isB64Char_encChar (by omega)
      · subst he; exact isB64Char_encChar (by omega)
      · subst he; exact isB64Char_encChar (by omega)
      · exact ih (fun y hy => h y (by simp [hy])) e he

theorem encData_guard (x : List Nat) :
    ((encData x).length % 4 = 0 ∧ padLen x = 0) ∨
    ((encData x).length % 4 = 2 ∧ padLen x = 2) ∨
    ((encData x).length % 4 = 3 ∧ padLen x = 1) := by
  induction x using encData.induct with
  | case1 => simp [encData, padLen]
  | case2 a => simp [encData, padLen]
  | case3 a b => simp [encData, padLen]
  | case4 a b c rest ih =>
      simp only [encData, padLen, List.length_cons]
      omega

theorem encData_length (x : List Nat) :
    (encData x).length =
      4 * (x.length / 3) + (if x.length % 3 = 0 then 0 else x.length % 3 + 1) := by
  induction x using encData.induct with
  | case1 => simp [encData]
  | case2 a => simp [encData]
  | case3 a b => simp [encData]
  | case4 a b c rest ih =>
      simp only [encData, List.length_cons, ih]
      have h3 : (rest.length + 1 + 1 + 1) % 3 = rest.length % 3 := by omega
      have h4 : (rest.length + 1 + 1 + 1) / 3 = rest.length / 3 + 1 := by omega
      rw [h3, h4]
      by_cases h : rest.length % 3 = 0 <;> simp [h] <;> omega

theorem padLen_eq (x : List Nat) :
    padLen x = (if x.length % 3 = 0 then 0 else 3 - x.length % 3) := by
  induction x using padLen.induct with
  | case1 => simp [padLen]
  | case2 => simp [padLen]
  | case3 => simp [padLen]
  | case4 a b c rest ih =>
      simp only [padLen, List.length_cons, ih]
      have h3 : (rest.length + 1 + 1 + 1) % 3 = rest.length % 3 := by omega
      rw [h3]

theorem b64encode_length (x : List Nat) :
    (b64encode x).length = 4 * ((x.length + 2) / 3) := by
  have hg := encData_length x
  have hp := padLen_eq x
  simp only [b64encode, List.length_append, List.length_replicate, hg, hp]
  by_cases h : x.length % 3 = 0 <;> simp [h] <;> omega

theorem decChunks_encData :
    ∀ x : List Nat, (∀ b ∈ x, b < 256) → decChunks (encData x) = x := by
  intro x
  induction x using encData.induct with
  | case1 => intro _; rfl
  | case2 a =>
      intro h
      have ha : a < 256 := h a (by simp)
      simp only [encData, decChunks]
      rw [decChar_encChar (show a / 4 < 64 by omega),
        decChar_encChar (show a % 4 * 16 < 64 by omega)]
      congr 1
      omega
  | case3 a b =>
      intro h
      have ha : a < 256 := h a (by simp)
      have hb : b < 256 := h b (by simp)
      simp only [encData, decChunks]
      rw [decChar_encChar (show a / 4 < 64 by omega),
        decChar_encChar (show a % 4 * 16 + b / 16 < 64 by omega),
        decChar_encChar (show b % 16 * 4 < 64 by omega)]
      congr 1
      · omega
      · congr 1; omega
  | case4 a b c rest ih =>
      intro h
      have ha : a < 256 := h a (by simp)
      have hb : b < 256 := h b (by simp)
      have hc : c < 256 := h c (by simp)
      simp only [encData, decChunks]
      rw [decChar_encChar (show a / 4 < 64 by omega),
        decChar_encChar (show a % 4 * 16 + b / 16 < 64 by omega),
        decChar_encChar (show b % 16 * 4 + c / 64 < 64 by omega),
        decChar_encChar (show c % 64 < 64 by omega),
        ih (fun y hy => h y (by simp [hy]))]
      congr 1
      · omega
      · congr 1
        · omega
        · congr 1; omega

theorem takeWhile_replicate_pad (k : Nat) :
    (List.replicate k '=').takeWhile isB64Char = [] := by
  cases k with
  | zero => rfl
  | succ m => simp [List.replicate_succ, List.takeWhile_cons, isB64Char_pad]

theorem dropWhile_replicate_pad (k : Nat) :
    (List.replicate k '=').dropWhile isB64Char = List.replicate k '=' := by
  cases k with
  | zero => rfl
  | succ m => simp [List.replicate_succ, List.dropWhile_cons, isB64Char_pad]

theorem b64encode_takeWhile (x : List Nat) (h : ∀ b ∈ x, b < 256) :
    (b64encode x).takeWhile isB64Char = encData x := by
  unfold b64encode
  rw [List.takeWhile_append_of_pos (encData_b64 x h), takeWhile_replicate_pad,
    List.append_nil]

theorem b64encode_dropWhile (x : List Nat) (h : ∀ b ∈ x, b < 256) :
    (b64encode x).dropWhile isB64Char = List.replicate (padLen x) '=' := by
  unfold b64encode
  rw [List.dropWhile_append_of_pos (encData_b64 x h), dropWhile_replicate_pad]

/-- Round trip of the modelled Python base64 codec on byte strings. -/
theorem b64decodePy_b64encode (x : List Nat) (h : ∀ b ∈ x, b < 256) :
    b64decodePy (b64encode x) = some x := by
  simp only [b64decodePy, b64encode_takeWhile x h, b64encode_dropWhile x h]
  have hall : (List.replicate (padLen x) '=').all (· = '=') = true := by
    simp [List.all_eq_true]
  rw [if_neg (by simp [hall])]
  have hlen : (List.replicate (padLen x) '=').length = padLen x :=
    List.length_replicate _ _
  rcases encData_guard x with ⟨h0, hp⟩ | ⟨h2, hp⟩ | ⟨h3, hp⟩ <;>
    rw [if_neg (by omega)] <;>
    rw [if_neg (by rw [hlen, hp]; omega), if_neg (by rw [hlen, hp]; omega)] <;>
    rw [decChunks_encData x h]

/-! ### Grammar parsing lemmas -/

theorem all_pad_replicate (k : Nat) :
    (List.replicate k '=').all (· = '=') = true := by
  induction k with
  | zero => rfl
  | succ m ih => simp_all [List.replicate_succ, List.all_cons]

theorem dropLit_self : ∀ lit r : List Char, dropLit lit (lit ++ r) = some r := by
  intro lit
  induction lit with
  | nil => intro r; rfl
  | cons a as ih => intro r; simp [dropLit, ih]

theorem dropLit_eq_append :
    ∀ lit s r : List Char, dropLit lit s = some r → s = lit ++ r := by
  intro lit
  induction lit with
  | nil => intro s r h; simp [dropLit] at h; simp [h]
  | cons a as ih =>
      intro s r h
      cases s with
      | nil => simp [dropLit] at h
      | cons b bs =>
          simp only [dropLit] at h
          by_cases hab : a = b
      
          · subst hab
            simp only [if_pos rfl] at h
            simp [ih bs r h]
          · simp [if_neg hab] at h

theorem expectChar_self (c : Char) (r : List Char) :
    expectChar c (c :: r) = some r := by
  simp [expectChar]

theorem parseField_render (n : Nat) (c : Char) (t : List Char)
    (hc : c.isDigit = false) :
    parseField (natToChars n ++ c :: t) = some (n, c :: t) := by
  have htake : (natToChars n ++ c :: t).takeWhile Char.isDigit = natToChars n := by
    rw [List.takeWhile_append_of_pos (natToChars_digits n)]
    simp [List.takeWhile_cons, hc]
  have hdrop : (natToChars n ++ c :: t).dropWhile Char.isDigit = c :: t := by
    rw [List.dropWhile_append_of_pos (natToChars_digits n)]
    simp [List.dropWhile_cons, hc]
  simp only [parseField, htake, hdrop]
  rw [if_neg (by simp [List.isEmpty_iff, natToChars_ne_nil n])]
  rw [charsToNat_natToChars]

theorem encData_ne_nil (x : List Nat) (h : x ≠ []) : encData x ≠ [] := by
  cases x with
  | nil => exact absurd rfl h
  | cons a t =>
      cases t with
      | nil => simp [encData]
      | cons b t2 => cases t2 <;> simp [encData]

theorem padLen_le (x : List Nat) : padLen x ≤ 2 := by
  rw [padLen_eq]
  by_cases h : x.length % 3 = 0 <;> simp [h] <;> omega

/-- Rendering an FSHP record parses back to its fields, with the base64
payload as the fourth group. -/
theorem parseHash_render (v ss rnd : Nat) (x : List Nat)
    (hb : ∀ b ∈ x, b < 256) (hne : x ≠ []) :
    fshp.parseHash (fshp.ident.data ++ natToChars v ++ '|' :: natToChars ss ++
      '|' :: natToChars rnd ++ '\x7d' :: b64encode x) =
    some (v, ss, rnd, b64encode x) := by
  have hpipe : ('|').isDigit = false := by decide
  have hbrace : ('\x7d').isDigit = false := by decide
  simp only [List.append_assoc, List.cons_append]
  simp only [fshp.parseHash, dropLit_self, parseField_render _ _ _ hpipe,
    expectChar_self, parseField_render _ _ _ hbrace]
  have hdd : (b64encode x).takeWhile isB64Char = encData x :=
    b64encode_takeWhile x hb
  have hpp : (b64encode x).dropWhile isB64Char = List.replicate (padLen x) '=' :=
    b64encode_dropWhile x hb
  simp only [hdd, hpp]
  rw [if_neg (by simp [List.isEmpty_iff, encData_ne_nil x hne])]
  rw [if_pos]
  refine ⟨?_, ?_⟩
  · rw [List.length_replicate]
    have := padLen_le x
    omega
  · exact all_pad_replicate _

/-- Rendering a salted-digest record parses back, with the base64 payload
as the `tmp` group. -/
theorem saltedParse_render (ident : String) (minData : Nat) (x : List Nat)
    (hb : ∀ b ∈ x, b < 256) (hlen : minData ≤ (encData x).length) :
    saltedParse ident minData (ident.data ++ b64encode x) = some (b64encode x) := by
  simp only [saltedParse, dropLit_self]
  have hdd : (b64encode x).takeWhile isB64Char = encData x :=
    b64encode_takeWhile x hb
  have hpp : (b64encode x).dropWhile isB64Char = List.replicate (padLen x) '=' :=
    b64encode_dropWhile x hb
  simp only [hdd, hpp]
  rw [if_pos]
  refine ⟨hlen, ?_, ?_⟩
  · rw [List.length_replicate]
    exact padLen_le x
  · exact all_pad_replicate _

/-! ### Record construction lemmas -/

theorem aliasLookup_lt {s : String} {v : Nat}
    (h : fshp.aliasLookup s = some v) : v < 4 := by
  unfold fshp.aliasLookup at h
  split_ifs at h <;> cases h <;> omega

theorem normVariant_lt {uD : Bool} {a : VariantArg} {v : Nat}
    (h : fshp.normVariant uD a = .ok v) : v < 4 := by
  cases a with
  | vnone =>
      simp only [fshp.normVariant] at h
      cases uD <;> simp_all [fshp.default_variant] <;> omega
  | vstr s =>
      simp only [fshp.normVariant] at h
      rcases ha : fshp.aliasLookup s with _ | w <;> rw [ha] at h <;> simp at h
      subst h
      exact aliasLookup_lt ha
  | vint n =>
      simp only [fshp.normVariant] at h
      split_ifs at h <;> cases h <;> omega

theorem normVariant_int (uD : Bool) (v : Nat) (hv : v < 4) :
    fshp.normVariant uD (.vint (Int.ofNat v)) = .ok v := by
  interval_cases v <;> rfl

theorem fshp_saltLenOk (salt : List Nat) :
    saltLenOk fshp.min_salt_size none salt = true := by
  simp [saltLenOk, fshp.min_salt_size]

theorem checksum_size_pos {v : Nat} (hv : v < 4) : 0 < fshp.checksum_size v := by
  interval_cases v <;> decide

theorem mk'_ok {uD : Bool} {varg : VariantArg} {salt : List Nat}
    {rounds : Nat} {chk : Option (List Nat)} {r : FshpRecord}
    (h : fshp.mk' uD varg salt rounds chk = .ok r) :
    fshp.normVariant uD varg = .ok r.variant ∧ r.salt = salt ∧
    r.rounds = rounds ∧ r.checksum = chk ∧
    fshp.min_rounds ≤ rounds ∧ rounds ≤ fshp.max_rounds ∧
    (∀ c, chk = some c → c.length = fshp.checksum_size r.variant) := by
  unfold fshp.mk' at h
  rcases hv : fshp.normVariant uD varg with e | v <;> simp only [hv] at h
  · exact Except.noConfusion h
  · rw [if_neg (by simp [fshp_saltLenOk])] at h
    by_cases hr : rounds < fshp.min_rounds ∨ fshp.max_rounds < rounds
    · rw [if_pos hr] at h; simp at h
    · rw [if_neg hr] at h
      cases chk with
      | none =>
          cases h
          exact ⟨rfl, rfl, rfl, rfl, by omega, by omega, by intro c hc; cases hc⟩
      | some c =>
          by_cases hc : c.length = fshp.checksum_size v
          · simp only [if_pos hc] at h
            cases h
            refine ⟨rfl, rfl, rfl, rfl, by omega, by omega, ?_⟩
            intro c' hc'
            cases hc'
            exact hc
          · simp only [if_neg hc] at h
            exact Except.noConfusion h

theorem mk'_build {v rounds : Nat} (uD : Bool) (salt c : List Nat)
    (hv : v < 4) (hr1 : fshp.min_rounds ≤ rounds)
    (hr2 : rounds ≤ fshp.max_rounds)
    (hc : c.length = fshp.checksum_size v) :
    fshp.mk' uD (.vint (Int.ofNat v)) salt rounds (some c) =
      .ok ⟨v, salt, rounds, some c⟩ := by
  unfold fshp.mk'
  simp only [normVariant_int uD v hv]
  rw [if_neg (by simp [fshp_saltLenOk])]
  rw [if_neg (by omega)]
  rw [if_pos hc]

theorem saltedMk_ok {cs : Nat} {salt : List Nat} {chk : Option (List Nat)}
    {r : SaltedRecord} (h : saltedMk cs salt chk = .ok r) :
    r.salt = salt ∧ r.checksum = chk ∧ 4 ≤ salt.length ∧ salt.length ≤ 16 ∧
    (∀ c, chk = some c → c.length = cs) := by
  unfold saltedMk at h
  by_cases hs : saltLenOk 4 (some 16) salt = true
  · rw [if_neg (by simp [hs])] at h
    have hs' : 4 ≤ salt.length ∧ salt.length ≤ 16 := by
      simpa [saltLenOk] using hs
    cases chk with
    | none =>
        cases h
        exact ⟨rfl, rfl, hs'.1, hs'.2, by intro c hc; cases hc⟩
    | some c =>
        by_cases hc : c.length = cs
        · simp only [if_pos hc] at h
          cases h
          refine ⟨rfl, rfl, hs'.1, hs'.2, ?_⟩
          intro c' hc'
          cases hc'
          exact hc
        · simp only [if_neg hc] at h
          exact Except.noConfusion h
  · rw [if_pos (by simpa using hs)] at h
    simp at h

theorem saltedMk_build (cs : Nat) (salt c : List Nat)
    (h4 : 4 ≤ salt.length) (h16 : salt.length ≤ 16) (hc : c.length = cs) :
    saltedMk cs salt (some c) = .ok ⟨salt, some c⟩ := by
  unfold saltedMk
  rw [if_neg (by simp [saltLenOk]; omega)]
  simp only [if_pos hc]

theorem encData_min27 (x : List Nat) (h : 20 ≤ x.length) :
    27 ≤ (encData x).length := by
  have hl := encData_length x
  by_cases h3 : x.length % 3 = 0 <;> simp [h3] at hl <;> omega

theorem encData_min32 (x : List Nat) (h : 24 ≤ x.length) :
    32 ≤ (encData x).length := by
  have hl := encData_length x
  by_cases h3 : x.length % 3 = 0 <;> simp [h3] at hl <;> omega

/-! ### Round-trip helpers -/

theorem fshp_from_to (v rounds : Nat) (salt c : List Nat)
    (hv : v < 4) (hr1 : fshp.min_rounds ≤ rounds)
    (hr2 : rounds ≤ fshp.max_rounds)
    (hc : c.length = fshp.checksum_size v)
    (hb : ∀ b ∈ salt ++ c, b < 256) :
    fshp.from_string (fshp.to_string ⟨v, salt, rounds, some c⟩) =
      .ok ⟨v, salt, rounds, some c⟩ := by
  have hcpos : 0 < c.length := by rw [hc]; exact checksum_size_pos hv
  have hne : salt ++ c ≠ [] := by
    intro hx
    rw [List.append_eq_nil] at hx
    have hc0 : c.length = 0 := by rw [hx.2]; rfl
    omega
  have hts : fshp.to_string ⟨v, salt, rounds, some c⟩ =
      fshp.ident.data ++ natToChars v ++ '|' :: natToChars salt.length ++
      '|' :: natToChars rounds ++ '\x7d' :: b64encode (salt ++ c) := by
    simp [fshp.to_string]
  rw [hts]
  simp only [fshp.from_string,
    parseHash_render v salt.length rounds (salt ++ c) hb hne,
    b64decodePy_b64encode (salt ++ c) hb, List.take_left, List.drop_left]
  exact mk'_build false salt c hv hr1 hr2 hc

theorem salted_from_to (ident : String) (minData cs : Nat) (salt c : List Nat)
    (h4 : 4 ≤ salt.length) (h16 : salt.length ≤ 16) (hc : c.length = cs)
    (hb : ∀ b ∈ c ++ salt, b < 256)
    (hmin : minData ≤ (encData (c ++ salt)).length) :
    saltedFromString ident minData cs (saltedToString ident cs ⟨salt, some c⟩) =
      .ok ⟨salt, some c⟩ := by
  have hts : saltedToString ident cs ⟨salt, some c⟩ =
      ident.data ++ b64encode (c ++ salt) := by
    simp [saltedToString]
  rw [hts]
  simp only [saltedFromString,
    saltedParse_render ident minData (c ++ salt) hb hmin,
    b64decodePy_b64encode (c ++ salt) hb]
  rw [← hc, List.take_left, List.drop_left]
  exact saltedMk_build c.length salt c h4 h16 rfl

/-! ### Identify lemmas -/

theorem beginsWith_append (l r : List Char) : beginsWith l (l ++ r) = true := by
  induction l with
  | nil => rfl
  | cons a as ih => simp [beginsWith, ih]

theorem identify_append (id : String) (hne : id.data ≠ []) (r : List Char) :
    identify id (id.data ++ r) = true := by
  have hemp : (id.data ++ r).isEmpty = false := by
    cases hd : id.data with
    | nil => exact absurd hd hne
    | cons a t => simp [hd]
  simp [identify, hemp, beginsWith_append]

theorem parseHash_shape {s : List Char}
    (h : (fshp.parseHash s).isSome = true) : ∃ r, s = fshp.ident.data ++ r := by
  unfold fshp.parseHash at h
  rcases hd : dropLit fshp.ident.data s with _ | r <;> simp only [hd] at h
  · simp at h
  · exact ⟨r, dropLit_eq_append _ _ _ hd⟩

theorem saltedParse_shape {ident : String} {minData : Nat} {s : List Char}
    (h : (saltedParse ident minData s).isSome = true) :
    ∃ r, s = ident.data ++ r := by
  unfold saltedParse at h
  rcases hd : dropLit ident.data s with _ | r <;> simp only [hd] at h
  · simp at h
  · exact ⟨r, dropLit_eq_append _ _ _ hd⟩

theorem md5_shape {s : List Char} (h : ldap_md5.matchesHash s = true) :
    ∃ r, s = ldap_md5.ident.data ++ r := by
  unfold ldap_md5.matchesHash at h
  rcases hd : dropLit ldap_md5.ident.data s with _ | r <;> simp only [hd] at h
  · simp at h
  · exact ⟨r, dropLit_eq_append _ _ _ hd⟩

theorem sha1_shape {s : List Char} (h : ldap_sha1.matchesHash s = true) :
    ∃ r, s = ldap_sha1.ident.data ++ r := by
  unfold ldap_sha1.matchesHash at h
  rcases hd : dropLit ldap_sha1.ident.data s with _ | r <;> simp only [hd] at h
  · simp at h
  · exact ⟨r, dropLit_eq_append _ _ _ hd⟩

theorem matches_shape (j : Fin 5) (s : List Char) (h : schemeMatches j s = true) :
    ∃ r, s = (schemeIdent j).data ++ r := by
  fin_cases j
  · exact parseHash_shape (by simpa [schemeMatches] using h)
  · exact md5_shape (by simpa [schemeMatches] using h)
  · exact sha1_shape (by simpa [schemeMatches] using h)
  · exact saltedParse_shape (by simpa [schemeMatches] using h)
  · exact saltedParse_shape (by simpa [schemeMatches] using h)

theorem identify_self (i : Fin 5) (r : List Char) :
    schemeIdentify i ((schemeIdent i).data ++ r) = true := by
  fin_cases i <;> exact identify_append _ (by decide) r

theorem ident_distinct (i j : Fin 5) (hne : i ≠ j) (r : List Char) :
    schemeIdentify i ((schemeIdent j).data ++ r) = false := by
  fin_cases i <;> fin_cases j <;> first
    | exact absurd rfl hne
    | rfl

/-! ### Error enumeration lemmas -/

theorem normVariant_error {uD : Bool} {a : VariantArg} {e : HandlerError}
    (h : fshp.normVariant uD a = .error e) : e = .unknownVariant := by
  cases a with
  | vnone =>
      simp only [fshp.normVariant] at h
      cases uD <;> simp_all
  | vstr s =>
      simp only [fshp.normVariant] at h
      rcases ha : fshp.aliasLookup s with _ | w <;> rw [ha] at h <;> simp_all
  | vint n =>
      simp only [fshp.normVariant] at h
      split_ifs at h <;> simp_all

theorem mk'_error {uD : Bool} {varg : VariantArg} {salt : List Nat}
    {rounds : Nat} {chk : Option (List Nat)} {e : HandlerError}
    (h : fshp.mk' uD varg salt rounds chk = .error e) :
    e = .unknownVariant ∨ e = .invalidSetting "salt" ∨
    e = .invalidSetting "rounds" ∨ e = .invalidSetting "checksum" := by
  unfold fshp.mk' at h
  rcases hv : fshp.normVariant uD varg with e' | v <;> simp only [hv] at h
  · cases h
    exact .inl (normVariant_error hv)
  · by_cases hs : ¬ saltLenOk fshp.min_salt_size none salt = true
    · simp only [if_pos hs] at h
      cases h
      exact .inr (.inl rfl)
    · simp only [if_neg hs] at h
      by_cases hr : rounds < fshp.min_rounds ∨ fshp.max_rounds < rounds
      · simp only [if_pos hr] at h
        cases h
        exact .inr (.inr (.inl rfl))
      · simp only [if_neg hr] at h
        cases chk with
        | none => exact Except.noConfusion h
        | some c =>
            by_cases hc : c.length = fshp.checksum_size v
            · simp only [if_pos hc] at h
              exact Except.noConfusion h
            · simp only [if_neg hc] at h
              cases h
              exact .inr (.inr (.inr rfl))

theorem saltedMk_error {cs : Nat} {salt : List Nat} {chk : Option (List Nat)}
    {e : HandlerError} (h : saltedMk cs salt chk = .error e) :
    e = .invalidSetting "salt" ∨ e = .invalidSetting "checksum" := by
  unfold saltedMk at h
  by_cases h1 : ¬ saltLenOk 4 (some 16) salt = true
  · simp only [if_pos h1] at h
    cases h
    exact .inl rfl
  · simp only [if_neg h1] at h
    cases chk with
    | none => exact Except.noConfusion h
    | some c =>
        by_cases hc : c.length = cs
        · simp only [if_pos hc] at h
          exact Except.noConfusion h
        · simp only [if_neg hc] at h
          cases h
          exact .inr rfl

/-! ### Claim theorems -/

/-- C1: for every fshp record accepted by the constructor and every
secret, `_calc_checksum` returns the external `pbkdf1` applied with the
record's salt passed as the KDF's `secret` argument, the caller's secret
(text first encoded to UTF-8 bytes) passed as the KDF's `salt` argument,
the record's rounds, the resolved variant's digest length as the output
length, and the resolved variant's algorithm name; the variant table is
0 to (sha1, 20), 1 to (sha256, 32), 2 to (sha384, 48), 3 to (sha512, 64). -/
theorem claim_C1_calc_checksum_swapped
    (uD : Bool) (varg : VariantArg) (salt : List Nat) (rounds : Nat)
    (chk : Option (List Nat)) (r : FshpRecord)
    (h : fshp.mk' uD varg salt rounds chk = .ok r)
    (kdf : KdfArgs → List Nat) (sec : Secret) :
    fshp.calcChecksum kdf r sec =
      kdf ⟨r.salt, secretBytes sec, r.rounds, fshp.checksum_size r.variant,
        fshp.checksum_alg r.variant⟩ ∧
    (∀ t : String, secretBytes (.text t) =
      t.toUTF8.toList.map (fun u => u.toNat)) ∧
    (∀ b : List Nat, secretBytes (.bytes b) = b) ∧
    fshp.variant_info 0 = some ("sha1", 20) ∧
    fshp.variant_info 1 = some ("sha256", 32) ∧
    fshp.variant_info 2 = some ("sha384", 48) ∧
    fshp.variant_info 3 = some ("sha512", 64) ∧
    r.variant < 4 := by
  exact ⟨rfl, fun t => rfl, fun b => rfl, rfl, rfl, rfl, rfl,
    normVariant_lt (mk'_ok h).1⟩

/-- C1 witness: at variant 1 the checksum call passes the record's salt
in the KDF's `secret` slot. -/
theorem claim_C1_witness :
    fshp.calcChecksum (fun a => a.secret) ⟨1, [1, 2], 40,
      some (List.replicate 32 0)⟩ (.bytes [9]) = [1, 2] :=
  (claim_C1_calc_checksum_swapped true .vnone [1, 2] 40
    (some (List.replicate 32 0)) ⟨1, [1, 2], 40, some (List.replicate 32 0)⟩
    (by decide) (fun a => a.secret) (.bytes [9])).1.trans rfl

/-- C5 counterexample: the string of five characters FSHP after an open
brace followed by the letter x begins with the fshp identifier, so
`identify` (the §4.2 prefix check) accepts it, yet it does not match the
fshp grammar; `identify` is therefore not equivalent to grammar
membership, refuting the claimed "if and only if". -/
theorem claim_C5_counterexample :
    schemeIdentify 0 "\x7bFSHPx".data = true ∧
    schemeMatches 0 "\x7bFSHPx".data = false := by decide

/-- C5 amended: `identify` is the §4.2 prefix check (non-empty and begins
with the scheme's identifier token).  On any string that matches one of
the five schemes' grammars, scheme `i`'s identify is true exactly when
`i` is that scheme — so there are no false negatives on a scheme's valid
strings and no false positives on the other schemes' valid strings — but
identify may also accept ident-prefixed strings that match no grammar. -/
theorem claim_C5_identify (i j : Fin 5) (s : List Char)
    (h : schemeMatches j s = true) :
    schemeIdentify i s = true ↔ i = j := by
  obtain ⟨r, rfl⟩ := matches_shape j s h
  constructor
  · intro hi
    by_contra hne
    rw [ident_distinct i j hne r] at hi
    cases hi
  · rintro rfl
    exact identify_self i r

/-- C5 witness: the salted-MD5 identify accepts a grammar-valid
salted-MD5 string. -/
theorem claim_C5_witness :
    schemeIdentify 3 "\x7bSMD5\x7dAAAAAAAAAAAAAAAAAAAAAAAAAAA=".data = true :=
  (claim_C5_identify 3 3 "\x7bSMD5\x7dAAAAAAAAAAAAAAAAAAAAAAAAAAA=".data
    (by decide)).mpr rfl

/-- C6: FSHP record construction succeeds only when the variant value
resolves against the registry: an integer in 0..3, or a string alias
that is a decimal form "0".."3" or an algorithm name sha1/sha256/
sha384/sha512; any other value is an `unknownVariant` error, and an
absent variant is an error unless `use_defaults` is set, in which case
(and only then) the default variant 1 is used. -/
theorem claim_C6_variant_resolution :
    (∀ (uD : Bool) (n : Int), 0 ≤ n ∧ n < 4 →
      fshp.normVariant uD (.vint n) = .ok n.toNat) ∧
    (∀ (uD : Bool) (n : Int), ¬(0 ≤ n ∧ n < 4) →
      fshp.normVariant uD (.vint n) = .error .unknownVariant) ∧
    (∀ (uD : Bool) (s : String) (v : Nat), fshp.aliasLookup s = some v →
      fshp.normVariant uD (.vstr s) = .ok v) ∧
    (∀ (uD : Bool) (s : String), fshp.aliasLookup s = none →
      fshp.normVariant uD (.vstr s) = .error .unknownVariant) ∧
    (∀ (s : String) (v : Nat), fshp.aliasLookup s = some v →
      (s = "0" ∧ v = 0) ∨ (s = "1" ∧ v = 1) ∨ (s = "2" ∧ v = 2) ∨
      (s = "3" ∧ v = 3) ∨ (s = "sha1" ∧ v = 0) ∨ (s = "sha256" ∧ v = 1) ∨
      (s = "sha384" ∧ v = 2) ∨ (s = "sha512" ∧ v = 3)) ∧
    (fshp.aliasLookup "0" = some 0 ∧ fshp.aliasLookup "1" = some 1 ∧
     fshp.aliasLookup "2" = some 2 ∧ fshp.aliasLookup "3" = some 3 ∧
     fshp.aliasLookup "sha1" = some 0 ∧ fshp.aliasLookup "sha256" = some 1 ∧
     fshp.aliasLookup "sha384" = some 2 ∧ fshp.aliasLookup "sha512" = some 3) ∧
    fshp.normVariant false .vnone = .error .unknownVariant ∧
    fshp.normVariant true .vnone = .ok 1 ∧
    (∀ (uD : Bool) (varg : VariantArg) (salt : List Nat) (rounds : Nat)
        (chk : Option (List Nat)) (r : FshpRecord),
      fshp.mk' uD varg salt rounds chk = .ok r →
      fshp.normVariant uD varg = .ok r.variant) ∧
    (∀ (salt : List Nat) (rounds : Nat) (chk : Option (List Nat)),
      fshp.mk' false .vnone salt rounds chk = .error .unknownVariant) := by
  refine ⟨?_, ?_, ?_, ?_, ?_, by decide, rfl, rfl, ?_, ?_⟩
  · intro uD n hn
    have : n = 0 ∨ n = 1 ∨ n = 2 ∨ n = 3 := by omega
    rcases this with rfl | rfl | rfl | rfl <;> rfl
  · intro uD n hn
    simp only [fshp.normVariant]
    rw [if_neg (by omega), if_neg (by omega), if_neg (by omega),
      if_neg (by omega)]
  · intro uD s v hs
    simp only [fshp.normVariant, hs]
  · intro uD s hs
    simp only [fshp.normVariant, hs]
  · intro s v hs
    unfold fshp.aliasLookup at hs
    split_ifs at hs <;> simp_all
  · intro uD varg salt rounds chk r h
    exact (mk'_ok h).1
  · intro salt rounds chk
    rfl

/-- C6 witness: the integer variant 2 resolves, the alias sha512
resolves to 3, and an absent variant without defaulting is an error. -/
theorem claim_C6_witness :
    fshp.normVariant true (.vint 2) = .ok 2 ∧
    fshp.normVariant false (.vstr "sha512") = .ok 3 ∧
    fshp.mk' false .vnone [] 100 none = .error .unknownVariant :=
  ⟨claim_C6_variant_resolution.1 true 2 (by decide),
   claim_C6_variant_resolution.2.2.1 false "sha512" 3 (by decide),
   claim_C6_variant_resolution.2.2.2.2.2.2.2.2.2 [] 100 none⟩

/-- C7: constructing a new fshp record with rounds below 1 or above
4294967295 fails with the rounds `InvalidSettingError`, and constructing
a salted-digest record with a salt shorter than 4 or longer than 16
bytes fails with the salt `InvalidSettingError`; a successful
construction keeps the caller's rounds and salt unchanged within the
bounds, so out-of-bounds values are never clamped. -/
theorem claim_C7_bounds_enforced :
    (∀ (uD : Bool) (varg : VariantArg) (v : Nat) (salt : List Nat)
        (rounds : Nat) (chk : Option (List Nat)),
      fshp.normVariant uD varg = .ok v →
      rounds < 1 ∨ 4294967295 < rounds →
      fshp.mk' uD varg salt rounds chk = .error (.invalidSetting "rounds")) ∧
    (∀ (cs : Nat) (salt : List Nat) (chk : Option (List Nat)),
      salt.length < 4 ∨ 16 < salt.length →
      saltedMk cs salt chk = .error (.invalidSetting "salt")) ∧
    (∀ (uD : Bool) (varg : VariantArg) (salt : List Nat) (rounds : Nat)
        (chk : Option (List Nat)) (r : FshpRecord),
      fshp.mk' uD varg salt rounds chk = .ok r →
      r.salt = salt ∧ r.rounds = rounds ∧ 1 ≤ rounds ∧ rounds ≤ 4294967295) ∧
    (∀ (cs : Nat) (salt : List Nat) (chk : Option (List Nat)) (r : SaltedRecord),
      saltedMk cs salt chk = .ok r →
      r.salt = salt ∧ 4 ≤ salt.length ∧ salt.length ≤ 16) := by
  refine ⟨?_, ?_, ?_, ?_⟩
  · intro uD varg v salt rounds chk hv hr
    unfold fshp.mk'
    simp only [hv]
    rw [if_neg (by simp [fshp_saltLenOk])]
    rw [if_pos (by simp only [fshp.min_rounds, fshp.max_rounds]; omega)]
  · intro cs salt chk hs
    unfold saltedMk
    rw [if_pos (by simp [saltLenOk]; omega)]
  · intro uD varg salt rounds chk r h
    obtain ⟨_, hs, hr, _, hmin, hmax, _⟩ := mk'_ok h
    exact ⟨hs, hr, hmin, hmax⟩
  · intro cs salt chk r h
    obtain ⟨hs, _, h4, h16, _⟩ := saltedMk_ok h
    exact ⟨hs, h4, h16⟩

/-- C7 witness: rounds 0 is rejected for fshp and a 3-byte salt is
rejected for the salted schemes, both as setting errors. -/
theorem claim_C7_witness :
    fshp.mk' true .vnone [1] 0 none = .error (.invalidSetting "rounds") ∧
    saltedMk 16 [1, 2, 3] none = .error (.invalidSetting "salt") :=
  ⟨claim_C7_bounds_enforced.1 true .vnone 1 [1] 0 none (by decide)
    (by decide),
   claim_C7_bounds_enforced.2.1 16 [1, 2, 3] none (by decide)⟩

/-- C8: whenever a checksum is present in an accepted record its length
equals the scheme's digest length — the resolved variant's digest size
for fshp (20/32/48/64 for variants 0..3), 16 for ldap_salted_md5 and
20 for ldap_salted_sha1 — and constructing with a checksum of any other
length fails with the checksum `InvalidSettingError` instead of
truncating or padding. -/
theorem claim_C8_checksum_length_invariant :
    (∀ (uD : Bool) (varg : VariantArg) (v : Nat) (salt : List Nat)
        (rounds : Nat) (c : List Nat),
      fshp.normVariant uD varg = .ok v → 1 ≤ rounds → rounds ≤ 4294967295 →
      (c.length = fshp.checksum_size v →
        fshp.mk' uD varg salt rounds (some c) = .ok ⟨v, salt, rounds, some c⟩) ∧
      (c.length ≠ fshp.checksum_size v →
        fshp.mk' uD varg salt rounds (some c) =
          .error (.invalidSetting "checksum"))) ∧
    (∀ (uD : Bool) (varg : VariantArg) (salt : List Nat) (rounds : Nat)
        (chk : Option (List Nat)) (r : FshpRecord) (c : List Nat),
      fshp.mk' uD varg salt rounds chk = .ok r → r.checksum = some c →
      c.length = fshp.checksum_size r.variant) ∧
    (fshp.checksum_size 0 = 20 ∧ fshp.checksum_size 1 = 32 ∧
     fshp.checksum_size 2 = 48 ∧ fshp.checksum_size 3 = 64) ∧
    (∀ (cs : Nat) (salt : List Nat) (c : List Nat),
      4 ≤ salt.length → salt.length ≤ 16 →
      (c.length = cs → saltedMk cs salt (some c) = .ok ⟨salt, some c⟩) ∧
      (c.length ≠ cs →
        saltedMk cs salt (some c) = .error (.invalidSetting "checksum"))) ∧
    (∀ (cs : Nat) (salt : List Nat) (chk : Option (List Nat))
        (r : SaltedRecord) (c : List Nat),
      saltedMk cs salt chk = .ok r → r.checksum = some c → c.length = cs) ∧
    ldap_salted_md5.checksum_size = 16 ∧ ldap_salted_sha1.checksum_size = 20 := by
  refine ⟨?_, ?_, by decide, ?_, ?_, rfl, rfl⟩
  · intro uD varg v salt rounds c hv hr1 hr2
    constructor
    · intro hc
      unfold fshp.mk'
      simp only [hv]
      rw [if_neg (by simp [fshp_saltLenOk])]
      rw [if_neg (by simp only [fshp.min_rounds, fshp.max_rounds]; omega)]
      simp only [if_pos hc]
    · intro hc
      unfold fshp.mk'
      simp only [hv]
      rw [if_neg (by simp [fshp_saltLenOk])]
      rw [if_neg (by simp only [fshp.min_rounds, fshp.max_rounds]; omega)]
      simp only [if_neg hc]
  · intro uD varg salt rounds chk r c h hc
    obtain ⟨_, _, _, hchk, _, _, hlen⟩ := mk'_ok h
    exact hlen c (hchk ▸ hc)
  · intro cs salt c h4 h16
    constructor
    · intro hc
      exact saltedMk_build cs salt c h4 h16 hc
    · intro hc
      unfold saltedMk
      rw [if_neg (by simp [saltLenOk]; omega)]
      simp only [if_neg hc]
  · intro cs salt chk r c h hc
    obtain ⟨_, hchk, _, _, hlen⟩ := saltedMk_ok h
    exact hlen c (hchk ▸ hc)

/-- C8 witness: a 31-byte checksum is rejected for fshp variant 1 (which
requires 32), and a 5-byte checksum is rejected for salted MD5. -/
theorem claim_C8_witness :
    fshp.mk' true .vnone [] 100 (some (List.replicate 31 0)) =
      .error (.invalidSetting "checksum") ∧
    saltedMk 16 [1, 2, 3, 4] (some [0, 0, 0, 0, 0]) =
      .error (.invalidSetting "checksum") :=
  ⟨(claim_C8_checksum_length_invariant.1 true .vnone 1 [] 100
      (List.replicate 31 0) (by decide) (by decide) (by decide)).2 (by decide),
   (claim_C8_checksum_length_invariant.2.2.2.1 16 [1, 2, 3, 4]
      [0, 0, 0, 0, 0] (by decide) (by decide)).2 (by decide)⟩

/-- C9: a config-only record (absent checksum) renders with an all-zero
stub of exactly the scheme's digest length in the checksum position, and
the rendered string has the same length as that of the corresponding
record carrying a real checksum. -/
theorem claim_C9_stub_checksum :
    (∀ v : Nat, fshp.stub_checksum v = List.replicate (fshp.checksum_size v) 0) ∧
    (∀ (v : Nat) (salt : List Nat) (rounds : Nat),
      fshp.to_string ⟨v, salt, rounds, none⟩ =
        fshp.ident.data ++ natToChars v ++ '|' :: natToChars salt.length ++
        '|' :: natToChars rounds ++
        '\x7d' :: b64encode (salt ++ List.replicate (fshp.checksum_size v) 0)) ∧
    (∀ (v : Nat) (salt : List Nat) (rounds : Nat) (c : List Nat),
      c.length = fshp.checksum_size v →
      (fshp.to_string ⟨v, salt, rounds, none⟩).length =
        (fshp.to_string ⟨v, salt, rounds, some c⟩).length) ∧
    (∀ (ident : String) (cs : Nat) (salt : List Nat),
      saltedToString ident cs ⟨salt, none⟩ =
        ident.data ++ b64encode (List.replicate cs 0 ++ salt)) ∧
    (∀ (ident : String) (cs : Nat) (salt : List Nat) (c : List Nat),
      c.length = cs →
      (saltedToString ident cs ⟨salt, none⟩).length =
        (saltedToString ident cs ⟨salt, some c⟩).length) := by
  refine ⟨fun v => rfl, fun v salt rounds => rfl, ?_, fun i cs salt => rfl, ?_⟩
  · intro v salt rounds c hc
    simp only [fshp.to_string, fshp.stub_checksum, Option.getD_none,
      Option.getD_some, List.length_append, List.length_cons,
      b64encode_length, List.length_replicate, hc]
  · intro i cs salt c hc
    simp only [saltedToString, Option.getD_none, Option.getD_some,
      List.length_append, b64encode_length, List.length_replicate, hc]

/-- C9 witness: the concrete length equality and stub rendering at
salted-MD5 with a 4-byte salt. -/
theorem claim_C9_witness :
    (saltedToString ldap_salted_md5.ident 16 ⟨[1, 2, 3, 4], none⟩).length =
      (saltedToString ldap_salted_md5.ident 16
        ⟨[1, 2, 3, 4], some (List.replicate 16 7)⟩).length :=
  claim_C9_stub_checksum.2.2.2.2 ldap_salted_md5.ident 16 [1, 2, 3, 4]
    (List.replicate 16 7) (by decide)

/-- C2: parsing is a left inverse of rendering on valid records with a
present checksum, for fshp, ldap_salted_md5 and ldap_salted_sha1: any
record accepted by the (spec-modelled) constructor re-parses from its
rendered string to an equal record — same variant, salt, rounds and
checksum. -/
theorem claim_C2_roundtrip :
    (∀ (uD : Bool) (varg : VariantArg) (salt : List Nat) (rounds : Nat)
        (c : List Nat) (r : FshpRecord),
      fshp.mk' uD varg salt rounds (some c) = .ok r →
      (∀ b ∈ salt, b < 256) → (∀ b ∈ c, b < 256) →
      fshp.from_string (fshp.to_string r) = .ok r) ∧
    (∀ (salt c : List Nat) (r : SaltedRecord),
      saltedMk ldap_salted_md5.checksum_size salt (some c) = .ok r →
      (∀ b ∈ salt, b < 256) → (∀ b ∈ c, b < 256) →
      ldap_salted_md5.from_string (ldap_salted_md5.to_string r) = .ok r) ∧
    (∀ (salt c : List Nat) (r : SaltedRecord),
      saltedMk ldap_salted_sha1.checksum_size salt (some c) = .ok r →
      (∀ b ∈ salt, b < 256) → (∀ b ∈ c, b < 256) →
      ldap_salted_sha1.from_string (ldap_salted_sha1.to_string r) = .ok r) := by
  refine ⟨?_, ?_, ?_⟩
  · intro uD varg salt rounds c r h hbs hbc
    obtain ⟨hv, hs, hr, hc, hmin, hmax, hlen⟩ := mk'_ok h
    have hb : ∀ b ∈ salt ++ c, b < 256 := by
      intro b hb
      rcases List.mem_append.mp hb with h' | h'
      exacts [hbs b h', hbc b h']
    have := fshp_from_to r.variant rounds salt c (normVariant_lt hv) hmin hmax
      (hlen c rfl) hb
    rw [← hs, ← hr, ← hc] at this
    exact this
  · intro salt c r h hbs hbc
    obtain ⟨hs, hchk, h4, h16, hlen⟩ := saltedMk_ok h
    have hb : ∀ b ∈ c ++ salt, b < 256 := by
      intro b hb
      rcases List.mem_append.mp hb with h' | h'
      exacts [hbc b h', hbs b h']
    have hmin : ldap_salted_md5.minData ≤ (encData (c ++ salt)).length := by
      apply encData_min27
      have := hlen c rfl
      simp only [List.length_append]
      simp only [ldap_salted_md5.checksum_size] at this
      omega
    have := salted_from_to ldap_salted_md5.ident ldap_salted_md5.minData
      ldap_salted_md5.checksum_size salt c h4 h16 (hlen c rfl) hb hmin
    rw [← hs, ← hchk] at this
    exact this
  · intro salt c r h hbs hbc
    obtain ⟨hs, hchk, h4, h16, hlen⟩ := saltedMk_ok h
    have hb : ∀ b ∈ c ++ salt, b < 256 := by
      intro b hb
      rcases List.mem_append.mp hb with h' | h'
      exacts [hbc b h', hbs b h']
    have hmin : ldap_salted_sha1.minData ≤ (encData (c ++ salt)).length := by
      apply encData_min32
      have := hlen c rfl
      simp only [List.length_append]
      simp only [ldap_salted_sha1.checksum_size] at this
      omega
    have := salted_from_to ldap_salted_sha1.ident ldap_salted_sha1.minData
      ldap_salted_sha1.checksum_size salt c h4 h16 (hlen c rfl) hb hmin
    rw [← hs, ← hchk] at this
    exact this

/-- C2 witness: concrete round trips through the rendered strings for
fshp variant 1 and salted MD5. -/
theorem claim_C2_witness :
    fshp.from_string
        (fshp.to_string ⟨1, [1, 2, 3, 4], 4096, some (List.replicate 32 7)⟩) =
      .ok ⟨1, [1, 2, 3, 4], 4096, some (List.replicate 32 7)⟩ ∧
    ldap_salted_md5.from_string
        (ldap_salted_md5.to_string ⟨[1, 2, 3, 4], some (List.replicate 16 0)⟩) =
      .ok ⟨[1, 2, 3, 4], some (List.replicate 16 0)⟩ :=
  ⟨claim_C2_roundtrip.1 true .vnone [1, 2, 3, 4] 4096 (List.replicate 32 7)
      ⟨1, [1, 2, 3, 4], 4096, some (List.replicate 32 7)⟩ (by decide)
      (by decide) (by decide),
   claim_C2_roundtrip.2.1 [1, 2, 3, 4] (List.replicate 16 0)
      ⟨[1, 2, 3, 4], some (List.replicate 16 0)⟩ (by decide) (by decide)
      (by decide)⟩

/-- C3: the salted LDAP schemes render as ident plus base64 of
checksum-then-salt — the reverse of FSHP's salt-then-checksum payload —
and on any grammar-matching string with decodable payload, from_string
splits the decoded bytes at the scheme's fixed checksum length (16 for
SMD5, 20 for SSHA), the first part being the checksum and the entire
remainder the salt; no salt length is read from the string. -/
theorem claim_C3_salted_payload_order :
    (∀ r : SaltedRecord, ldap_salted_md5.to_string r =
      ldap_salted_md5.ident.data ++
      b64encode (r.checksum.getD (List.replicate 16 0) ++ r.salt)) ∧
    (∀ r : SaltedRecord, ldap_salted_sha1.to_string r =
      ldap_salted_sha1.ident.data ++
      b64encode (r.checksum.getD (List.replicate 20 0) ++ r.salt)) ∧
    (∀ r : FshpRecord, fshp.to_string r =
      fshp.ident.data ++ natToChars r.variant ++
      '|' :: natToChars r.salt.length ++ '|' :: natToChars r.rounds ++
      '\x7d' :: b64encode (r.salt ++
        r.checksum.getD (fshp.stub_checksum r.variant))) ∧
    (∀ (s payload : List Char) (data : List Nat),
      saltedParse ldap_salted_md5.ident ldap_salted_md5.minData s =
        some payload →
      b64decodePy payload = some data →
      ldap_salted_md5.from_string s =
        saltedMk 16 (data.drop 16) (some (data.take 16))) ∧
    (∀ (s payload : List Char) (data : List Nat),
      saltedParse ldap_salted_sha1.ident ldap_salted_sha1.minData s =
        some payload →
      b64decodePy payload = some data →
      ldap_salted_sha1.from_string s =
        saltedMk 20 (data.drop 20) (some (data.take 20))) := by
  refine ⟨fun r => rfl, fun r => rfl, fun r => rfl, ?_, ?_⟩
  · intro s payload data hp hd
    simp only [ldap_salted_md5.from_string, saltedFromString, hp, hd]
    rfl
  · intro s payload data hp hd
    simp only [ldap_salted_sha1.from_string, saltedFromString, hp, hd]
    rfl

/-- C3 witness: the rendered salted-MD5 string of a known record
re-parses by splitting its 20 decoded bytes into a 16-byte checksum and
the 4-byte remainder salt. -/
theorem claim_C3_witness :
    ldap_salted_md5.from_string
        "\x7bSMD5\x7dAAAAAAAAAAAAAAAAAAAAAAECAwQ=".data =
      .ok ⟨[1, 2, 3, 4], some (List.replicate 16 0)⟩ :=
  (claim_C3_salted_payload_order.2.2.2.1
      "\x7bSMD5\x7dAAAAAAAAAAAAAAAAAAAAAAECAwQ=".data
      "AAAAAAAAAAAAAAAAAAAAAAECAwQ=".data
      (List.replicate 16 0 ++ [1, 2, 3, 4]) (by decide) (by decide)).trans
    (by decide)

theorem saltedFromString_classes (ident : String) (minData cs : Nat)
    (s : List Char) :
    (saltedFromString ident minData cs s = .error .invalidHash ↔
      saltedParse ident minData s = none) ∧
    (saltedFromString ident minData cs s = .error .malformedHash ↔
      ∃ payload, saltedParse ident minData s = some payload ∧
        b64decodePy payload = none) := by
  rcases hp : saltedParse ident minData s with _ | payload
  · simp [saltedFromString, hp]
  · rcases hd : b64decodePy payload with _ | data
    · simp [saltedFromString, hp, hd]
    · have hfs : saltedFromString ident minData cs s =
          saltedMk cs (data.drop cs) (some (data.take cs)) := by
        simp only [saltedFromString, hp, hd]
      refine ⟨⟨?_, ?_⟩, ⟨?_, ?_⟩⟩
      · intro hE
        rw [hfs] at hE
        rcases saltedMk_error hE with h1 | h1 <;>
          exact HandlerError.noConfusion h1
      · intro hN
        cases hN
      · intro hE
        rw [hfs] at hE
        rcases saltedMk_error hE with h1 | h1 <;>
          exact HandlerError.noConfusion h1
      · rintro ⟨p, hg, hdec⟩
        cases hg
        simp [hd] at hdec

/-- C4: for every input string, from_string of fshp, ldap_salted_md5 and
ldap_salted_sha1 yields `InvalidHashError` exactly when the string fails
the scheme's anchored grammar, and `MalformedHashError` exactly when the
grammar matches but base64-decoding the matched payload fails; the two
error classes are never interchanged, and record-construction failures
surface as different errors. -/
theorem claim_C4_error_class_dichotomy :
    (∀ s : List Char,
      (fshp.from_string s = .error .invalidHash ↔ fshp.parseHash s = none) ∧
      (fshp.from_string s = .error .malformedHash ↔
        ∃ g : Nat × Nat × Nat × List Char,
          fshp.parseHash s = some g ∧ b64decodePy g.2.2.2 = none)) ∧
    (∀ s : List Char,
      (ldap_salted_md5.from_string s = .error .invalidHash ↔
        saltedParse ldap_salted_md5.ident ldap_salted_md5.minData s = none) ∧
      (ldap_salted_md5.from_string s = .error .malformedHash ↔
        ∃ payload,
          saltedParse ldap_salted_md5.ident ldap_salted_md5.minData s =
            some payload ∧ b64decodePy payload = none)) ∧
    (∀ s : List Char,
      (ldap_salted_sha1.from_string s = .error .invalidHash ↔
        saltedParse ldap_salted_sha1.ident ldap_salted_sha1.minData s = none) ∧
      (ldap_salted_sha1.from_string s = .error .malformedHash ↔
        ∃ payload,
          saltedParse ldap_salted_sha1.ident ldap_salted_sha1.minData s =
            some payload ∧ b64decodePy payload = none)) := by
  refine ⟨?_, fun s => saltedFromString_classes _ _ _ s,
    fun s => saltedFromString_classes _ _ _ s⟩
  intro s
  rcases hp : fshp.parseHash s with _ | ⟨v, ss, rnd, payload⟩
  · simp [fshp.from_string, hp]
  · rcases hd : b64decodePy payload with _ | data
    · simp [fshp.from_string, hp, hd]
    · have hfs : fshp.from_string s = fshp.mk' false (.vint (Int.ofNat v))
          (data.take ss) rnd (some (data.drop ss)) := by
        simp only [fshp.from_string, hp, hd]
      refine ⟨⟨?_, ?_⟩, ⟨?_, ?_⟩⟩
      · intro hE
        rw [hfs] at hE
        rcases mk'_error hE with h1 | h1 | h1 | h1 <;>
          exact HandlerError.noConfusion h1
      · intro hN
        cases hN
      · intro hE
        rw [hfs] at hE
        rcases mk'_error hE with h1 | h1 | h1 | h1 <;>
          exact HandlerError.noConfusion h1
      · rintro ⟨g, hg, hdec⟩
        cases hg
        simp [hd] at hdec

/-- C4 witness: a non-matching string is an invalid-hash error and a
matching string with undecodable payload (5 data characters, so 5 mod 4
is 1) is a malformed-hash error. -/
theorem claim_C4_witness :
    fshp.from_string "nonsense".data = .error .invalidHash ∧
    fshp.from_string "\x7bFSHP1|5|10\x7dAAAAA".data = .error .malformedHash :=
  ⟨((claim_C4_error_class_dichotomy.1 "nonsense".data).1).mpr (by decide),
   ((claim_C4_error_class_dichotomy.1 "\x7bFSHP1|5|10\x7dAAAAA".data).2).mpr
     ⟨(1, 5, 10, "AAAAA".data), by decide, by decide⟩⟩

/-- C10 counterexample: the grammar-matching string FSHP4|5|10 followed
by the four-character payload AAAA decodes to 3 bytes, which is at most
the declared salt size 5, yet from_string rejects it at variant
resolution (`unknownVariant`), not at the checksum-length validation —
refuting "any rejection of such a string can come only from the
subsequent checksum-length validation". -/
theorem claim_C10_counterexample :
    fshp.parseHash "\x7bFSHP4|5|10\x7dAAAA".data =
      some (4, 5, 10, "AAAA".data) ∧
    b64decodePy "AAAA".data = some [0, 0, 0] ∧
    [0, 0, 0].length ≤ 5 ∧
    fshp.from_string "\x7bFSHP4|5|10\x7dAAAA".data =
      .error .unknownVariant := by decide

/-- C10 amended: from_string splits the decoded payload at the declared
salt-size field without any length check — when the payload has at most
salt_size bytes the whole payload becomes the salt and the checksum
becomes empty — and the split itself never produces `MalformedHashError`
(or `InvalidHashError`); any rejection of such a string comes from
record-construction validation (variant resolution, rounds bounds, or
checksum length), and when the variant resolves and the rounds are in
bounds the rejection is exactly the checksum-length validation. -/
theorem claim_C10_short_payload_split (s : List Char) (v ss rnd : Nat)
    (payload : List Char) (data : List Nat)
    (hp : fshp.parseHash s = some (v, ss, rnd, payload))
    (hd : b64decodePy payload = some data) :
    fshp.from_string s = fshp.mk' false (.vint (Int.ofNat v)) (data.take ss)
      rnd (some (data.drop ss)) ∧
    (data.length ≤ ss → data.take ss = data ∧ data.drop ss = []) ∧
    fshp.from_string s ≠ .error .malformedHash ∧
    fshp.from_string s ≠ .error .invalidHash ∧
    (∀ e, fshp.from_string s = .error e →
      e = .unknownVariant ∨ e = .invalidSetting "salt" ∨
      e = .invalidSetting "rounds" ∨ e = .invalidSetting "checksum") ∧
    (data.length ≤ ss → ∀ v' : Nat,
      fshp.normVariant false (.vint (Int.ofNat v)) = .ok v' →
      1 ≤ rnd → rnd ≤ 4294967295 →
      fshp.from_string s = .error (.invalidSetting "checksum")) := by
  have hfs : fshp.from_string s = fshp.mk' false (.vint (Int.ofNat v))
      (data.take ss) rnd (some (data.drop ss)) := by
    simp only [fshp.from_string, hp, hd]
  refine ⟨hfs, ?_, ?_, ?_, ?_, ?_⟩
  · intro hle
    exact ⟨List.take_of_length_le hle, List.drop_eq_nil_of_le hle⟩
  · intro hE
    rw [hfs] at hE
    rcases mk'_error hE with h1 | h1 | h1 | h1 <;>
      exact HandlerError.noConfusion h1
  · intro hE
    rw [hfs] at hE
    rcases mk'_error hE with h1 | h1 | h1 | h1 <;>
      exact HandlerError.noConfusion h1
  · intro e hE
    rw [hfs] at hE
    exact mk'_error hE
  · intro hle v' hv hr1 hr2
    rw [hfs, List.take_of_length_le hle, List.drop_eq_nil_of_le hle]
    unfold fshp.mk'
    simp only [hv]
    rw [if_neg (by simp [fshp_saltLenOk])]
    rw [if_neg (by simp only [fshp.min_rounds, fshp.max_rounds]; omega)]
    have hpos : 0 < fshp.checksum_size v' := checksum_size_pos (normVariant_lt hv)
    simp only [if_neg (by simp; omega : ¬ (List.length ([] : List Nat) = fshp.checksum_size v'))]

/-- C10 witness: with a valid variant and rounds, the same short-payload
string is rejected exactly by the checksum-length validation. -/
theorem claim_C10_witness :
    fshp.from_string "\x7bFSHP1|5|10\x7dAAAA".data =
      .error (.invalidSetting "checksum") :=
  (claim_C10_short_payload_split "\x7bFSHP1|5|10\x7dAAAA".data 1 5 10
      "AAAA".data [0, 0, 0] (by decide) (by decide)).2.2.2.2.2 (by decide) 1
    (by decide) (by decide) (by decide)
